import Mathlib

/-!
Shallow embedding of the CompHub task server (`server.js`): a JSON-backed task
store with shallow-merge updates, tracked-field change detection into an
append-only activity log, comment entries, and template-driven seeding.

Modelling conventions:
* JavaScript values reaching the store are modelled by `JVal`; objects by
  association lists `Obj` in key-insertion order, matching object literal /
  spread semantics (`objSet` is "define property": replace in place or append).
* Property access `o[k]` is total and yields `vUndef` for a missing key,
  as in JavaScript.
* Wall-clock instants are modelled by `Nat` (milliseconds); the server's
  `new Date().toISOString()` strings are represented by `JVal.vTime`, which is
  order-isomorphic to the instants it renders.
* `Math.random()`-derived data enters as explicit parameters: seeding takes a
  stream of day offsets in `Fin 20` (the exact range of
  `Math.floor(Math.random() * 20)`), and activity-entry ids/timestamps come
  from a `meta` stream.
* File persistence always succeeds in this model (the server swallows write
  errors and keeps serving the in-memory result); `ServerState` is the
  persisted pair of documents, with `tasksFile = none` for the never-written /
  unparsable "absent" state.
-/

set_option autoImplicit false

/-- JSON-ish runtime values as they occur in this server's store: strings,
integer-valued numbers, booleans, `null`, the JavaScript `undefined` (result of
reading a missing property), and server-generated ISO-8601 timestamps, kept
abstract as the instant they render. -/
inductive JVal where
  | vUndef
  | vNull
  | vBool (b : Bool)
  | vStr (s : String)
  | vNum (n : Int)
  | vTime (t : Nat)
deriving DecidableEq, Repr

/-- A JavaScript object, as an association list in key insertion order. -/
abbrev Obj := List (String × JVal)

/-- Property read `o[k]`: first binding of the key, `undefined` when absent. -/
def objGet (o : Obj) (k : String) : JVal :=
  match o with
  | [] => .vUndef
  | (k0, v) :: rest => if k0 = k then v else objGet rest k

/-- Property write: overwrite the existing binding in place, else append —
the semantics of defining a property in an object literal or by spread. -/
def objSet (o : Obj) (k : String) (v : JVal) : Obj :=
  match o with
  | [] => [(k, v)]
  | (k0, v0) :: rest => if k0 = k then (k0, v) :: rest else (k0, v0) :: objSet rest k v

/-- Spread `{...a, ...b}`: define every property of `b` over `a`, in order. -/
def objMerge (a b : Obj) : Obj :=
  b.foldl (fun acc p => objSet acc p.1 p.2) a

/-- Does the object bind the key at all? -/
def hasKey (o : Obj) (k : String) : Bool :=
  o.any (fun p => p.1 == k)

/-- Keys bound at most once — true of every object produced by `JSON.parse`
(later duplicates already collapsed) and preserved by `objSet`. -/
def objWF (o : Obj) : Prop :=
  (o.map Prod.fst).Nodup

/-- JavaScript truthiness test (negated) for the values of this model. -/
def isFalsy : JVal → Bool
  | .vUndef => true
  | .vNull => true
  | .vBool b => !b
  | .vStr s => s == ""
  | .vNum n => n == 0
  | .vTime _ => false

/-- The `v || dflt` idiom used for all request-body defaults. -/
def jsOr (v dflt : JVal) : JVal :=
  if isFalsy v then dflt else v

/-- The instant rendered by a stored timestamp value (0 for non-timestamps);
models reading a timestamp field back through `new Date(...)`. -/
def tsNat : JVal → Nat
  | .vTime t => t
  | _ => 0

example : objGet [("a", .vNum 1), ("b", .vNum 2)] "b" = .vNum 2 := by decide
example : objMerge [("a", .vNum 1), ("b", .vNum 2)] [("b", .vNum 3), ("c", .vNum 4)]
    = [("a", .vNum 1), ("b", .vNum 3), ("c", .vNum 4)] := by decide
example : jsOr (.vStr "") (.vStr "User") = .vStr "User" := by decide

/-- The per-task activity mapping persisted in `activity.json`:
task-id string → insertion-ordered entry list. -/
abbrev Activity := List (String × List Obj)

/-- Lookup in the activity mapping (`none` when the key is absent). -/
def actGet (a : Activity) (k : String) : Option (List Obj) :=
  match a with
  | [] => none
  | (k0, v) :: rest => if k0 = k then some v else actGet rest k

/-- Replace-or-append write to the activity mapping. -/
def actSet (a : Activity) (k : String) (v : List Obj) : Activity :=
  match a with
  | [] => [(k, v)]
  | (k0, v0) :: rest => if k0 = k then (k0, v) :: rest else (k0, v0) :: actSet rest k v

/-- `activity[key]` defaulted to `[]`, as in `if (!activity[key]) activity[key] = []`. -/
def actGetD (a : Activity) (k : String) : List Obj :=
  (actGet a k).getD []

/-- The two persisted documents: `tasks.json` (with `none` for the
never-written or unparsable "absent" state, which `readTasks` reports as
`null`) and `activity.json` (absence already reads back as `{}`). -/
structure ServerState where
  tasksFile : Option (List Obj)
  activity : Activity
deriving DecidableEq, Repr

/-- The full stored form of an activity entry:
`{id: Date.now() + Math.random(), ...entry, timestamp: new Date().toISOString()}`,
with the generated id as opaque parameter `eid` and the append instant `now`. -/
def fullEntry (entry : Obj) (eid : JVal) (now : Nat) : Obj :=
  objSet (objMerge [("id", eid)] entry) "timestamp" (.vTime now)

/-- `addActivityEntry(taskId, entry)`: look up (or create) the per-task list,
push the full entry, persist, and return the updated list. -/
def addActivityEntry (activity : Activity) (taskId : Int) (entry : Obj)
    (eid : JVal) (now : Nat) : Activity × List Obj :=
  let key := toString taskId
  let lst := actGetD activity key ++ [fullEntry entry eid now]
  (actSet activity key lst, lst)

/-- The fixed tracked-field list of the update route. -/
def trackedFields : List String :=
  ["status", "owner", "priority", "dueDate", "title"]

/-- The entry passed to `addActivityEntry` for one changed tracked field. -/
def mkFieldChangeEntry (old body : Obj) (f : String) : Obj :=
  [("type", .vStr "field_change"),
   ("field", .vStr f),
   ("oldValue", objGet old f),
   ("newValue", objGet body f),
   ("actor", jsOr (objGet body "_actor") (.vStr "User"))]

/-- `req.body[field] !== undefined && req.body[field] !== oldTask[field]`. -/
def changedP (old body : Obj) (f : String) : Bool :=
  !(objGet body f == .vUndef) && !(objGet body f == objGet old f)

/-- The `trackedFields.forEach` loop of the update route: one
`addActivityEntry` call per changed tracked field, in list order. `meta i`
supplies the generated id and timestamp of the `i`-th appended entry. -/
def logChanges (activity : Activity) (id : Int) (old body : Obj)
    (meta : Nat → JVal × Nat) : List String → Nat → Activity
  | [], _ => activity
  | f :: rest, i =>
    if changedP old body f then
      logChanges (addActivityEntry activity id (mkFieldChangeEntry old body f)
          (meta i).1 (meta i).2).1 id old body meta rest (i + 1)
    else
      logChanges activity id old body meta rest i

/-- The updated record of `PUT /api/tasks/:id`:
`{...tasks[idx], ...req.body, id, createdAt: tasks[idx].createdAt, updatedAt: now}`. -/
def mkUpdated (old body : Obj) (id : Int) (now : Nat) : Obj :=
  objSet (objSet (objSet (objMerge old body) "id" (.vNum id))
    "createdAt" (objGet old "createdAt")) "updatedAt" (.vTime now)

/-- `PUT /api/tasks/:id`: find the task, 404 if absent; otherwise store the
merged record and run change detection into the activity log. Returns the
response body alongside the post-request persisted state. -/
def apiUpdateTask (st : ServerState) (id : Int) (body : Obj) (now : Nat)
    (meta : Nat → JVal × Nat) : Except String Obj × ServerState :=
  let tasks := st.tasksFile.getD []
  match tasks.findIdx? (fun t => objGet t "id" == .vNum id) with
  | none => (.error "Task not found", st)
  | some idx =>
    let old := tasks[idx]?.getD []
    let updated := mkUpdated old body id now
    (.ok updated,
     { tasksFile := some (tasks.set idx updated),
       activity := logChanges st.activity id old body meta trackedFields 0 })

/-- The numeric value of a record's `id` (every record this server ever
stores carries an integer `id`; other shapes are unreachable and default
to 0 here, where `Math.max` would poison the fold with `NaN`). -/
def idNum (t : Obj) : Int :=
  match objGet t "id" with
  | .vNum n => n
  | _ => 0

/-- `POST /api/tasks`: next id is `max(0, existing ids) + 1`; every omitted
(or falsy) field takes its default; `createdAt = updatedAt = now`. `curMonth`
and `today` stand for `new Date().getMonth() + 1` and the current date string
used as fallbacks for `month` and `dueDate`. -/
def apiCreateTask (st : ServerState) (body : Obj) (now : Nat)
    (curMonth : Int) (today : String) : Obj × ServerState :=
  let tasks := st.tasksFile.getD []
  let maxId := tasks.foldl (fun mx t => max mx (idNum t)) 0
  let newTask : Obj :=
    [("id", .vNum (maxId + 1)),
     ("title", jsOr (objGet body "title") (.vStr "New Task")),
     ("month", jsOr (objGet body "month") (.vNum curMonth)),
     ("duration", jsOr (objGet body "duration") (.vStr "1 week")),
     ("owner", jsOr (objGet body "owner") (.vStr "Analyst")),
     ("priority", jsOr (objGet body "priority") (.vStr "medium")),
     ("status", jsOr (objGet body "status") (.vStr "not_started")),
     ("dueDate", jsOr (objGet body "dueDate") (.vStr today)),
     ("boardId", jsOr (objGet body "boardId") (.vStr "")),
     ("boardName", jsOr (objGet body "boardName") (.vStr "")),
     ("domainId", jsOr (objGet body "domainId") (.vStr "")),
     ("domainName", jsOr (objGet body "domainName") (.vStr "")),
     ("notes", jsOr (objGet body "notes") (.vStr "")),
     ("createdAt", .vTime now),
     ("updatedAt", .vTime now)]
  (newTask, { st with tasksFile := some (tasks ++ [newTask]) })

/-- `DELETE /api/tasks/:id`: 404 if absent, else `tasks.splice(idx, 1)`. -/
def apiDeleteTask (st : ServerState) (id : Int) : Except String Unit × ServerState :=
  let tasks := st.tasksFile.getD []
  match tasks.findIdx? (fun t => objGet t "id" == .vNum id) with
  | none => (.error "Task not found", st)
  | some idx => (.ok (), { st with tasksFile := some (tasks.eraseIdx idx) })

/-- Sort instant of a stored entry: `new Date(e.timestamp)` in the read-time
comparator. -/
def entryTs (e : Obj) : Nat :=
  tsNat (objGet e "timestamp")

/-- `GET /api/tasks/:id/activity`: the stored per-task list (route parameter
used as raw string key), sorted descending by timestamp at read time. The
comparator `(a, b) => new Date(b.timestamp) - new Date(a.timestamp)` is
modelled by a stable descending merge sort, matching the engine's stable
`Array.prototype.sort`. First the comparator: `a` may come before `b` when
`b`'s timestamp is not later than `a`'s. -/
def entryLe (a b : Obj) : Bool :=
  entryTs b ≤ entryTs a

/-- `GET /api/tasks/:id/activity`: the handler proper. -/
def apiListActivity (st : ServerState) (idStr : String) : List Obj :=
  (actGetD st.activity idStr).mergeSort entryLe

/-- The comment entry built by `POST /api/tasks/:id/comments`. -/
def commentEntry (body : Obj) : Obj :=
  [("type", .vStr "comment"),
   ("author", jsOr (objGet body "author") (.vStr "User")),
   ("text", jsOr (objGet body "text") (.vStr "")),
   ("actor", jsOr (objGet body "author") (.vStr "User"))]

/-- `POST /api/tasks/:id/comments`: 404 (with nothing appended) when no task
has the id; else append one comment entry and return the freshly appended
entry (`entries[entries.length - 1]`). -/
def apiAddComment (st : ServerState) (id : Int) (body : Obj)
    (eid : JVal) (now : Nat) : Except String Obj × ServerState :=
  let tasks := st.tasksFile.getD []
  match tasks.find? (fun t => objGet t "id" == .vNum id) with
  | none => (.error "Task not found", st)
  | some _ =>
    let res := addActivityEntry st.activity id (commentEntry body) eid now
    (.ok (res.2.getLast?.getD []), { st with activity := res.1 })

/-- A task template of the catalog (`{t, m, d?, o, p}` in `templates.js`). -/
structure Template where
  t : String
  m : Nat
  d : Option String
  o : String
  p : String
deriving DecidableEq, Repr

/-- A board of the catalog: identity, display name, domain key, ordered
template list. -/
structure Board where
  id : String
  name : String
  domain : String
  tasks : List Template
deriving DecidableEq, Repr

/-- The read-only template catalog (`BOARDS` plus `DOMAIN_META[..].name`). -/
structure Catalog where
  boards : List Board
  domainName : String → String

/-- Total number of templates across the catalog. -/
def totalTemplates (cat : Catalog) : Nat :=
  (cat.boards.map (fun b => b.tasks.length)).sum

/-- `tmpl.d || "1 week"` on an optional template string. -/
def jsStrOr (s : Option String) (dflt : String) : String :=
  match s with
  | none => dflt
  | some v => if v == "" then dflt else v

/-- Day-of-month printed by
`new Date(year, month - 1, day).toISOString().split('T')[0]`.
The constructed instant is local midnight of the given day; `toISOString`
renders it in UTC, i.e. shifted back by `tzEastMin` minutes (the zone's
offset east of UTC, negative west of UTC). Computed in minutes from the
start of the month with JavaScript's floor division; for `2 ≤ day` and
offsets smaller than one day the result stays inside the same month. -/
def utcDueDay (day : Nat) (tzEastMin : Int) : Int :=
  (((day : Int) - 1) * 1440 - tzEastMin).fdiv 1440 + 1

/-- Zero-padded two-digit component of an ISO date. -/
def pad2 (n : Nat) : String :=
  if n < 10 then "0" ++ toString n else toString n

/-- The `YYYY-MM-DD` rendering used for due dates. -/
def fmtDate (y m d : Nat) : String :=
  toString y ++ "-" ++ pad2 m ++ "-" ++ pad2 d

/-- One seeded record: the object literal pushed by `seedTasks` for template
`tmpl` of `board`, with sequential id `id`, day offset `rand id`, seeding
instant `now`, current year `year`, and timezone offset `tz` minutes east. -/
def mkSeedTask (cat : Catalog) (year now : Nat) (rand : Nat → Fin 20)
    (tz : Int) (board : Board) (id : Nat) (tmpl : Template) : Obj :=
  let day := 5 + (rand id).val
  [("id", .vNum id),
   ("title", .vStr tmpl.t),
   ("month", .vNum tmpl.m),
   ("duration", .vStr (jsStrOr tmpl.d "1 week")),
   ("owner", .vStr tmpl.o),
   ("priority", .vStr tmpl.p),
   ("status", .vStr "not_started"),
   ("dueDate", .vStr (fmtDate year tmpl.m (utcDueDay day tz).toNat)),
   ("boardId", .vStr board.id),
   ("boardName", .vStr board.name),
   ("domainId", .vStr board.domain),
   ("domainName", .vStr (cat.domainName board.domain)),
   ("notes", .vStr ""),
   ("createdAt", .vTime now),
   ("updatedAt", .vTime now)]

/-- Inner `board.tasks.forEach`: one record per template, `id++` each push. -/
def seedTemplates (cat : Catalog) (year now : Nat) (rand : Nat → Fin 20)
    (tz : Int) (board : Board) : List Template → Nat → List Obj
  | [], _ => []
  | tmpl :: rest, id =>
    mkSeedTask cat year now rand tz board id tmpl
      :: seedTemplates cat year now rand tz board rest (id + 1)

/-- Outer `BOARDS.forEach`, threading the id counter across boards. -/
def seedBoards (cat : Catalog) (year now : Nat) (rand : Nat → Fin 20)
    (tz : Int) : List Board → Nat → List Obj
  | [], _ => []
  | b :: rest, id =>
    seedTemplates cat year now rand tz b b.tasks id
      ++ seedBoards cat year now rand tz rest (id + b.tasks.length)

/-- `seedTasks()`: expand the whole catalog starting from id 1 and persist
the result as the new full collection. -/
def seedTasks (cat : Catalog) (year now : Nat) (rand : Nat → Fin 20)
    (tz : Int) : List Obj :=
  seedBoards cat year now rand tz cat.boards 1

/-- Response body of `POST /api/seed`. -/
structure SeedResp where
  count : Nat
  boards : Nat
deriving DecidableEq, Repr

/-- `POST /api/seed`: regenerate the collection from the catalog, reset the
activity document to `{}`, and report the record and board counts. The prior
state is discarded entirely. -/
def apiSeed (_st : ServerState) (cat : Catalog) (year now : Nat)
    (rand : Nat → Fin 20) (tz : Int) : SeedResp × ServerState :=
  let tasks := seedTasks cat year now rand tz
  ({ count := tasks.length, boards := cat.boards.length },
   { tasksFile := some tasks, activity := [] })

example : utcDueDay 5 0 = 5 := by decide
example : utcDueDay 5 (-300) = 5 := by decide
example : utcDueDay 5 60 = 4 := by decide
example : utcDueDay 24 120 = 23 := by decide
example : fmtDate 2026 6 4 = "2026-06-04" := by decide

/-! ### Object and activity-map lemmas -/

theorem objGet_objSet_self (o : Obj) (k : String) (v : JVal) :
    objGet (objSet o k v) k = v := by
  induction o with
  | nil => simp [objSet, objGet]
  | cons p rest ih =>
    obtain ⟨k0, v0⟩ := p
    by_cases h : k0 = k
    · simp [objSet, objGet, h]
    · simp [objSet, objGet, h, ih]

theorem objGet_objSet_ne (o : Obj) (k k' : String) (v : JVal) (h : k ≠ k') :
    objGet (objSet o k v) k' = objGet o k' := by
  induction o with
  | nil => simp [objSet, objGet, h]
  | cons p rest ih =>
    obtain ⟨k0, v0⟩ := p
    by_cases h0 : k0 = k
    · subst h0
      simp [objSet, objGet, h]
    · simp only [objSet, if_neg h0]
      by_cases h1 : k0 = k'
      · simp [objGet, h1]
      · simp [objGet, h1, ih]

theorem hasKey_iff_mem (o : Obj) (k : String) :
    hasKey o k = true ↔ k ∈ o.map Prod.fst := by
  induction o with
  | nil => simp [hasKey]
  | cons p rest ih =>
    simp only [hasKey, List.any_cons, Bool.or_eq_true, List.map_cons, List.mem_cons]
    constructor
    · rintro (h | h)
      · exact Or.inl (beq_iff_eq.mp h).symm
      · exact Or.inr (ih.mp h)
    · rintro (h | h)
      · exact Or.inl (beq_iff_eq.mpr h.symm)
      · exact Or.inr (ih.mpr h)

theorem objGet_eq_vUndef_of_not_hasKey (o : Obj) (k : String)
    (h : hasKey o k = false) : objGet o k = .vUndef := by
  induction o with
  | nil => simp [objGet]
  | cons p rest ih =>
    simp only [hasKey, List.any_cons, Bool.or_eq_false_iff] at h
    obtain ⟨h1, h2⟩ := h
    have hne : p.1 ≠ k := by
      intro hcontra
      simp [hcontra] at h1
    obtain ⟨k0, v0⟩ := p
    simp only [objGet, if_neg hne]
    exact ih h2

theorem objGet_objMerge_of_not_hasKey (b : Obj) :
    ∀ (a : Obj) (k : String), hasKey b k = false →
      objGet (objMerge a b) k = objGet a k := by
  induction b with
  | nil => intro a k _; simp [objMerge]
  | cons p rest ih =>
    intro a k h
    simp only [hasKey, List.any_cons, Bool.or_eq_false_iff] at h
    obtain ⟨h1, h2⟩ := h
    have hne : p.1 ≠ k := by
      intro hcontra
      simp [hcontra] at h1
    simp only [objMerge, List.foldl_cons]
    have := ih (objSet a p.1 p.2) k h2
    simp only [objMerge] at this
    rw [this, objGet_objSet_ne _ _ _ _ hne]

theorem objGet_objMerge_of_hasKey (b : Obj) :
    ∀ (a : Obj) (k : String), objWF b → hasKey b k = true →
      objGet (objMerge a b) k = objGet b k := by
  induction b with
  | nil => intro a k _ h; simp [hasKey] at h
  | cons p rest ih =>
    intro a k hwf h
    obtain ⟨k0, v0⟩ := p
    simp only [objWF, List.map_cons, List.nodup_cons] at hwf
    obtain ⟨hnotin, hwfrest⟩ := hwf
    by_cases hk : k0 = k
    · subst hk
      have hrest : hasKey rest k0 = false := by
        by_contra hc
        exact hnotin ((hasKey_iff_mem rest k0).mp (by simpa using hc))
      simp only [objMerge, List.foldl_cons]
      have := objGet_objMerge_of_not_hasKey rest (objSet a k0 v0) k0 hrest
      simp only [objMerge] at this
      rw [this, objGet_objSet_self]
      simp [objGet]
    · have hrest : hasKey rest k = true := by
        simp only [hasKey, List.any_cons, Bool.or_eq_true] at h
        rcases h with h | h
        · exact absurd (beq_iff_eq.mp h) hk
        · exact h
      simp only [objMerge, List.foldl_cons]
      have := ih (objSet a k0 v0) k hwfrest hrest
      simp only [objMerge] at this
      rw [this]
      simp [objGet, hk]

/-- Merge lookup: a key of a well-formed `b` reads from `b`, any other key
from `a` — the shallow-merge semantics of `{...a, ...b}`. -/
theorem objGet_objMerge (a b : Obj) (k : String) (hwf : objWF b) :
    objGet (objMerge a b) k
      = (if hasKey b k then objGet b k else objGet a k) := by
  by_cases h : hasKey b k
  · rw [if_pos h, objGet_objMerge_of_hasKey b a k hwf h]
  · rw [if_neg h, objGet_objMerge_of_not_hasKey b a k (by simpa using h)]

theorem actGet_actSet_self (a : Activity) (k : String) (v : List Obj) :
    actGet (actSet a k v) k = some v := by
  induction a with
  | nil => simp [actSet, actGet]
  | cons p rest ih =>
    obtain ⟨k0, v0⟩ := p
    by_cases h : k0 = k
    · simp [actSet, actGet, h]
    · simp [actSet, actGet, h, ih]

theorem actGet_actSet_ne (a : Activity) (k k' : String) (v : List Obj)
    (h : k ≠ k') : actGet (actSet a k v) k' = actGet a k' := by
  induction a with
  | nil => simp [actSet, actGet, h]
  | cons p rest ih =>
    obtain ⟨k0, v0⟩ := p
    by_cases h0 : k0 = k
    · subst h0
      simp [actSet, actGet, h]
    · simp only [actSet, if_neg h0]
      by_cases h1 : k0 = k'
      · simp [actGet, h1]
      · simp [actGet, h1, ih]

/-! ### Change-detection lemmas -/

/-- The entries the update route appends for the given field list, with their
generated metadata, starting at append index `i`. -/
def entriesFor (old body : Obj) (meta : Nat → JVal × Nat) :
    List String → Nat → List Obj
  | [], _ => []
  | f :: rest, i =>
    if changedP old body f then
      fullEntry (mkFieldChangeEntry old body f) (meta i).1 (meta i).2
        :: entriesFor old body meta rest (i + 1)
    else
      entriesFor old body meta rest i

theorem actGetD_logChanges (id : Int) (old body : Obj) (meta : Nat → JVal × Nat) :
    ∀ (fs : List String) (i : Nat) (a : Activity),
      actGetD (logChanges a id old body meta fs i) (toString id)
        = actGetD a (toString id) ++ entriesFor old body meta fs i := by
  intro fs
  induction fs with
  | nil => intro i a; simp [logChanges, entriesFor]
  | cons f rest ih =>
    intro i a
    by_cases h : changedP old body f
    · simp only [logChanges, entriesFor, h, if_true]
      rw [ih]
      simp only [addActivityEntry, actGetD, actGet_actSet_self, Option.getD_some]
      simp [List.append_assoc]
    · simp only [logChanges, entriesFor, h, if_false]
      exact ih i a

theorem fullEntry_mkFieldChange (old body : Obj) (f : String) (eid : JVal)
    (t : Nat) :
    fullEntry (mkFieldChangeEntry old body f) eid t
      = [("id", eid),
         ("type", .vStr "field_change"),
         ("field", .vStr f),
         ("oldValue", objGet old f),
         ("newValue", objGet body f),
         ("actor", jsOr (objGet body "_actor") (.vStr "User")),
         ("timestamp", .vTime t)] := by
  simp [fullEntry, mkFieldChangeEntry, objMerge, objSet]

theorem field_of_fullEntry (old body : Obj) (f : String) (eid : JVal) (t : Nat) :
    objGet (fullEntry (mkFieldChangeEntry old body f) eid t) "field"
      = .vStr f := by
  rw [fullEntry_mkFieldChange]
  simp [objGet]

theorem entriesFor_map_field (old body : Obj) (meta : Nat → JVal × Nat) :
    ∀ (fs : List String) (i : Nat),
      (entriesFor old body meta fs i).map (fun e => objGet e "field")
        = (fs.filter (changedP old body)).map JVal.vStr := by
  intro fs
  induction fs with
  | nil => intro i; simp [entriesFor]
  | cons f rest ih =>
    intro i
    by_cases h : changedP old body f
    · simp only [entriesFor, h, if_true, List.map_cons, List.filter_cons_of_pos,
        field_of_fullEntry]
      rw [ih]
    · simp only [entriesFor, h, if_false, List.filter_cons_of_neg,
        Bool.not_eq_true]
      exact ih i

theorem entriesFor_mem (old body : Obj) (meta : Nat → JVal × Nat) :
    ∀ (fs : List String) (i : Nat) (e : Obj), e ∈ entriesFor old body meta fs i →
      ∃ f j, f ∈ fs ∧ changedP old body f = true
        ∧ e = fullEntry (mkFieldChangeEntry old body f) (meta j).1 (meta j).2 := by
  intro fs
  induction fs with
  | nil => intro i e h; simp [entriesFor] at h
  | cons f rest ih =>
    intro i e h
    by_cases hc : changedP old body f
    · simp only [entriesFor, hc, if_true, List.mem_cons] at h
      rcases h with h | h
      · exact ⟨f, i, List.mem_cons_self f rest, hc, h⟩
      · obtain ⟨f', j, hf', hc', he⟩ := ih (i + 1) e h
        exact ⟨f', j, List.mem_cons_of_mem f hf', hc', he⟩
    · simp only [entriesFor, hc, if_false] at h
      obtain ⟨f', j, hf', hc', he⟩ := ih i e h
      exact ⟨f', j, List.mem_cons_of_mem f hf', hc', he⟩

/-! ### Update-route lemmas -/

theorem findIdx?_pred_true {α : Type} (p : α → Bool) (l : List α) (i : Nat)
    (x : α) (hidx : l.findIdx? p = some i) (hx : l[i]? = some x) :
    p x = true := by
  rw [List.findIdx?_eq_some_iff_getElem] at hidx
  obtain ⟨h, hp, _⟩ := hidx
  rw [List.getElem?_eq_getElem h] at hx
  cases hx
  exact hp

theorem apiUpdateTask_ok (st : ServerState) (id : Int) (body : Obj) (now : Nat)
    (meta : Nat → JVal × Nat) (idx : Nat) (old : Obj)
    (hidx : (st.tasksFile.getD []).findIdx? (fun t => objGet t "id" == .vNum id)
      = some idx)
    (hold : (st.tasksFile.getD [])[idx]? = some old) :
    apiUpdateTask st id body now meta
      = (.ok (mkUpdated old body id now),
         { tasksFile :=
             some ((st.tasksFile.getD []).set idx (mkUpdated old body id now)),
           activity := logChanges st.activity id old body meta trackedFields 0 }) := by
  simp only [apiUpdateTask]
  rw [hidx]
  simp [hold]

/-- C1: for every update request on an existing task, the returned and stored
record keeps the pre-update `id` and `createdAt` regardless of what the body
supplies for them, and every other supplied field (apart from the
server-stamped `updatedAt`) is shallow-merged over the existing record. -/
theorem update_preserves_identity_and_merges
    (st : ServerState) (id : Int) (body : Obj) (now : Nat)
    (meta : Nat → JVal × Nat) (idx : Nat) (old resp : Obj) (st' : ServerState)
    (hwf : objWF body)
    (hidx : (st.tasksFile.getD []).findIdx? (fun t => objGet t "id" == .vNum id)
      = some idx)
    (hold : (st.tasksFile.getD [])[idx]? = some old)
    (hok : apiUpdateTask st id body now meta = (.ok resp, st')) :
    objGet resp "id" = objGet old "id"
    ∧ objGet resp "createdAt" = objGet old "createdAt"
    ∧ st'.tasksFile = some ((st.tasksFile.getD []).set idx resp)
    ∧ ∀ k, k ≠ "id" → k ≠ "createdAt" → k ≠ "updatedAt" →
        objGet resp k = (if hasKey body k then objGet body k else objGet old k) := by
  rw [apiUpdateTask_ok st id body now meta idx old hidx hold] at hok
  simp only [Prod.mk.injEq, Except.ok.injEq] at hok
  obtain ⟨hresp, hst⟩ := hok
  subst hresp
  subst hst
  have hid : objGet old "id" = .vNum id := by
    have := findIdx?_pred_true _ _ _ _ hidx hold
    exact beq_iff_eq.mp this
  refine ⟨?_, ?_, rfl, ?_⟩
  · rw [mkUpdated, objGet_objSet_ne _ _ _ _ (by decide),
      objGet_objSet_ne _ _ _ _ (by decide), objGet_objSet_self, hid]
  · rw [mkUpdated, objGet_objSet_ne _ _ _ _ (by decide), objGet_objSet_self]
  · intro k hk1 hk2 hk3
    rw [mkUpdated, objGet_objSet_ne _ _ _ _ (fun h => hk3 h.symm),
      objGet_objSet_ne _ _ _ _ (fun h => hk2 h.symm),
      objGet_objSet_ne _ _ _ _ (fun h => hk1 h.symm),
      objGet_objMerge _ _ _ hwf]

def c1Task : Obj :=
  [("id", .vNum 1), ("title", .vStr "Old"),
   ("createdAt", .vTime 7), ("updatedAt", .vTime 8)]

def c1Body : Obj :=
  [("title", .vStr "New"), ("id", .vNum 99), ("createdAt", .vTime 0)]

def c1Meta : Nat → JVal × Nat := fun _ => (.vNull, 50)

/-- Witness for C1 at a concrete update whose body tries to overwrite `id`
and `createdAt`. -/
theorem update_preserves_identity_and_merges_witness :
    objGet (mkUpdated c1Task c1Body 1 50) "id" = objGet c1Task "id"
    ∧ objGet (mkUpdated c1Task c1Body 1 50) "createdAt" = objGet c1Task "createdAt"
    ∧ objGet (mkUpdated c1Task c1Body 1 50) "title"
        = (if hasKey c1Body "title" then objGet c1Body "title" else objGet c1Task "title") := by
  have h := update_preserves_identity_and_merges ⟨some [c1Task], []⟩ 1 c1Body 50
    c1Meta 0 c1Task _ _ (by unfold objWF; decide) (by decide) (by decide)
    (apiUpdateTask_ok ⟨some [c1Task], []⟩ 1 c1Body 50 c1Meta 0 c1Task
      (by decide) (by decide))
  exact ⟨h.1, h.2.1, h.2.2.2 "title" (by decide) (by decide) (by decide)⟩

theorem vStr_injective : Function.Injective JVal.vStr := by
  intro a b h
  injection h

/-- C2: a successful update appends exactly the change entries of the tracked
fields, in the fixed tracked-field order: one entry per tracked field that is
present in the body with a different value (carrying the old value, the new
value, and the caller-supplied actor tag defaulted to "User"), none for a
tracked field supplied with its current value, and none for untracked
fields. -/
theorem update_activity_entries
    (st : ServerState) (id : Int) (body : Obj) (now : Nat)
    (meta : Nat → JVal × Nat) (idx : Nat) (old : Obj)
    (resp : Except String Obj) (st' : ServerState)
    (hidx : (st.tasksFile.getD []).findIdx? (fun t => objGet t "id" == .vNum id)
      = some idx)
    (hold : (st.tasksFile.getD [])[idx]? = some old)
    (hok : apiUpdateTask st id body now meta = (resp, st')) :
    actGetD st'.activity (toString id)
      = actGetD st.activity (toString id)
        ++ entriesFor old body meta trackedFields 0
    ∧ (entriesFor old body meta trackedFields 0).map (fun e => objGet e "field")
        = (trackedFields.filter (changedP old body)).map JVal.vStr
    ∧ (∀ f ∈ trackedFields, changedP old body f = true →
        ((entriesFor old body meta trackedFields 0).map
          (fun e => objGet e "field")).count (JVal.vStr f) = 1)
    ∧ (∀ f : String, changedP old body f = false →
        ((entriesFor old body meta trackedFields 0).map
          (fun e => objGet e "field")).count (JVal.vStr f) = 0)
    ∧ (∀ f : String, f ∉ trackedFields →
        ((entriesFor old body meta trackedFields 0).map
          (fun e => objGet e "field")).count (JVal.vStr f) = 0)
    ∧ (∀ e ∈ entriesFor old body meta trackedFields 0, ∀ f : String,
        objGet e "field" = .vStr f →
          objGet e "type" = .vStr "field_change"
          ∧ objGet e "oldValue" = objGet old f
          ∧ objGet e "newValue" = objGet body f
          ∧ objGet e "actor" = jsOr (objGet body "_actor") (.vStr "User")) := by
  rw [apiUpdateTask_ok st id body now meta idx old hidx hold] at hok
  simp only [Prod.mk.injEq] at hok
  obtain ⟨-, hst⟩ := hok
  subst hst
  have hmap := entriesFor_map_field old body meta trackedFields 0
  refine ⟨actGetD_logChanges id old body meta trackedFields 0 st.activity,
    hmap, ?_, ?_, ?_, ?_⟩
  · intro f hf hc
    rw [hmap, List.count_map_of_injective _ _ vStr_injective,
      List.count_filter (by simpa using hc)]
    exact List.count_eq_one_of_mem (by decide) hf
  · intro f hc
    rw [hmap, List.count_map_of_injective _ _ vStr_injective,
      List.count_eq_zero]
    intro hmem
    rw [List.mem_filter] at hmem
    rw [hmem.2] at hc
    cases hc
  · intro f hf
    rw [hmap, List.count_map_of_injective _ _ vStr_injective,
      List.count_eq_zero]
    intro hmem
    exact hf (List.mem_of_mem_filter hmem)
  · intro e he f hfield
    obtain ⟨f', j, -, -, hef⟩ := entriesFor_mem old body meta trackedFields 0 e he
    subst hef
    rw [field_of_fullEntry] at hfield
    have hff : f' = f := vStr_injective hfield
    subst hff
    rw [fullEntry_mkFieldChange]
    refine ⟨?_, ?_, ?_, ?_⟩ <;> simp [objGet]

def c2Task : Obj :=
  [("id", .vNum 2), ("status", .vStr "not_started"), ("notes", .vStr ""),
   ("createdAt", .vTime 1), ("updatedAt", .vTime 1)]

def c2Body : Obj :=
  [("status", .vStr "in_progress"), ("notes", .vStr "draft"),
   ("_actor", .vStr "Jane")]

def c2Meta : Nat → JVal × Nat := fun i => (.vNum (Int.ofNat i), 60)

/-- Witness for C2: a status change logs one entry, the untracked `notes`
change logs none, and the appended field order is the tracked order. -/
theorem update_activity_entries_witness :
    ((entriesFor c2Task c2Body c2Meta trackedFields 0).map
      (fun e => objGet e "field")).count (JVal.vStr "status") = 1
    ∧ ((entriesFor c2Task c2Body c2Meta trackedFields 0).map
      (fun e => objGet e "field")).count (JVal.vStr "notes") = 0
    ∧ (entriesFor c2Task c2Body c2Meta trackedFields 0).map
        (fun e => objGet e "field")
      = (trackedFields.filter (changedP c2Task c2Body)).map JVal.vStr := by
  have h := update_activity_entries ⟨some [c2Task], []⟩ 2 c2Body 60 c2Meta 0
    c2Task _ _ (by decide) (by decide)
    (apiUpdateTask_ok ⟨some [c2Task], []⟩ 2 c2Body 60 c2Meta 0 c2Task
      (by decide) (by decide))
  exact ⟨h.2.2.1 "status" (by decide) (by decide),
    h.2.2.2.2.1 "notes" (by decide), h.2.1⟩

/-- C3 (amended): an update stamps `updatedAt` with the operation's current
instant; this is strictly later than the pre-update `updatedAt` exactly when
the clock reads strictly later — in particular two updates within the same
millisecond produce equal `updatedAt` strings (see the counterexample). -/
theorem update_updatedAt_now
    (st : ServerState) (id : Int) (body : Obj) (now : Nat)
    (meta : Nat → JVal × Nat) (idx : Nat) (old resp : Obj) (st' : ServerState)
    (hidx : (st.tasksFile.getD []).findIdx? (fun t => objGet t "id" == .vNum id)
      = some idx)
    (hold : (st.tasksFile.getD [])[idx]? = some old)
    (hok : apiUpdateTask st id body now meta = (.ok resp, st'))
    (hclock : tsNat (objGet old "updatedAt") < now) :
    objGet resp "updatedAt" = .vTime now
    ∧ tsNat (objGet old "updatedAt") < tsNat (objGet resp "updatedAt") := by
  rw [apiUpdateTask_ok st id body now meta idx old hidx hold] at hok
  simp only [Prod.mk.injEq, Except.ok.injEq] at hok
  obtain ⟨hresp, -⟩ := hok
  subst hresp
  have hnow : objGet (mkUpdated old body id now) "updatedAt" = .vTime now := by
    rw [mkUpdated, objGet_objSet_self]
  refine ⟨hnow, ?_⟩
  rw [hnow]
  simpa [tsNat] using hclock

def c3Task : Obj :=
  [("id", .vNum 1), ("createdAt", .vTime 5), ("updatedAt", .vTime 100)]

def c3Meta : Nat → JVal × Nat := fun _ => (.vNull, 100)

/-- Counterexample to C3 as stated: an update processed at the very instant
recorded in the task's `updatedAt` (two requests in the same millisecond)
returns an `updatedAt` equal to — not strictly later than — the pre-update
value. -/
theorem update_same_millisecond_counterexample :
    (apiUpdateTask ⟨some [c3Task], []⟩ 1 [] 100 c3Meta).1
      = .ok (mkUpdated c3Task [] 1 100)
    ∧ objGet c3Task "updatedAt" = .vTime 100
    ∧ objGet (mkUpdated c3Task [] 1 100) "updatedAt" = .vTime 100
    ∧ ¬ tsNat (objGet c3Task "updatedAt")
        < tsNat (objGet (mkUpdated c3Task [] 1 100) "updatedAt") := by
  exact ⟨rfl, rfl, rfl, by decide⟩

/-- Witness for the amended C3 at a strictly advanced clock. -/
theorem update_updatedAt_now_witness :
    objGet (mkUpdated c3Task [] 1 200) "updatedAt" = .vTime 200
    ∧ tsNat (objGet c3Task "updatedAt")
        < tsNat (objGet (mkUpdated c3Task [] 1 200) "updatedAt") := by
  exact update_updatedAt_now ⟨some [c3Task], []⟩ 1 [] 200 c3Meta 0 c3Task _ _
    (by decide) (by decide)
    (apiUpdateTask_ok ⟨some [c3Task], []⟩ 1 [] 200 c3Meta 0 c3Task
      (by decide) (by decide)) (by decide)

/-- The fifteen field names of a task record (§3 of the data model). -/
def taskFieldNames : List String :=
  ["id", "title", "month", "duration", "owner", "priority", "status",
   "dueDate", "boardId", "boardName", "domainId", "domainName", "notes",
   "createdAt", "updatedAt"]

/-- C10: the update route's spread merge copies every body key that is not a
task-record field — including the `_actor` metadata tag — into the stored
(and returned) record. -/
theorem update_persists_unknown_keys
    (st : ServerState) (id : Int) (body : Obj) (now : Nat)
    (meta : Nat → JVal × Nat) (idx : Nat) (old resp : Obj) (st' : ServerState)
    (hwf : objWF body)
    (hidx : (st.tasksFile.getD []).findIdx? (fun t => objGet t "id" == .vNum id)
      = some idx)
    (hold : (st.tasksFile.getD [])[idx]? = some old)
    (hok : apiUpdateTask st id body now meta = (.ok resp, st')) :
    st'.tasksFile = some ((st.tasksFile.getD []).set idx resp)
    ∧ (∀ k, k ∉ taskFieldNames → hasKey body k = true →
        objGet resp k = objGet body k)
    ∧ (hasKey body "_actor" = true →
        objGet resp "_actor" = objGet body "_actor") := by
  rw [apiUpdateTask_ok st id body now meta idx old hidx hold] at hok
  simp only [Prod.mk.injEq, Except.ok.injEq] at hok
  obtain ⟨hresp, hst⟩ := hok
  subst hresp
  subst hst
  have hmain : ∀ k, k ≠ "id" → k ≠ "createdAt" → k ≠ "updatedAt" →
      hasKey body k = true →
      objGet (mkUpdated old body id now) k = objGet body k := by
    intro k h1 h2 h3 hk
    rw [mkUpdated, objGet_objSet_ne _ _ _ _ (fun h => h3 h.symm),
      objGet_objSet_ne _ _ _ _ (fun h => h2 h.symm),
      objGet_objSet_ne _ _ _ _ (fun h => h1 h.symm),
      objGet_objMerge _ _ _ hwf, if_pos hk]
  refine ⟨rfl, ?_, ?_⟩
  · intro k hk hb
    have h1 : k ≠ "id" := by intro h; subst h; simp [taskFieldNames] at hk
    have h2 : k ≠ "createdAt" := by intro h; subst h; simp [taskFieldNames] at hk
    have h3 : k ≠ "updatedAt" := by intro h; subst h; simp [taskFieldNames] at hk
    exact hmain k h1 h2 h3 hb
  · intro hb
    exact hmain "_actor" (by decide) (by decide) (by decide) hb

def c10Task : Obj :=
  [("id", .vNum 3), ("status", .vStr "not_started"),
   ("createdAt", .vTime 2), ("updatedAt", .vTime 2)]

def c10Body : Obj :=
  [("status", .vStr "done"), ("_actor", .vStr "Jane"), ("rogue", .vNum 7)]

def c10Meta : Nat → JVal × Nat := fun _ => (.vNull, 90)

/-- Witness for C10: `_actor` and an arbitrary unknown key land in the
updated record. -/
theorem update_persists_unknown_keys_witness :
    objGet (mkUpdated c10Task c10Body 3 90) "rogue" = objGet c10Body "rogue"
    ∧ objGet (mkUpdated c10Task c10Body 3 90) "_actor" = objGet c10Body "_actor" := by
  have h := update_persists_unknown_keys ⟨some [c10Task], []⟩ 3 c10Body 90
    c10Meta 0 c10Task _ _ (by unfold objWF; decide) (by decide) (by decide)
    (apiUpdateTask_ok ⟨some [c10Task], []⟩ 3 c10Body 90 c10Meta 0 c10Task
      (by decide) (by decide))
  exact ⟨h.2.1 "rogue" (by decide) (by decide), h.2.2 (by decide)⟩

/-! ### Delete-route lemmas -/

theorem filter_not_eraseIdx_findIdx {α : Type} (p : α → Bool) :
    ∀ (l : List α) (i : Nat), l.findIdx? p = some i →
      (l.eraseIdx i).filter (fun x => !p x) = l.filter (fun x => !p x) := by
  intro l
  induction l with
  | nil => intro i h; simp at h
  | cons a l ih =>
    intro i h
    rw [List.findIdx?_cons] at h
    by_cases hp : p a
    · rw [if_pos hp] at h
      cases h
      simp only [List.eraseIdx_cons_zero]
      rw [List.filter_cons_of_neg (by simp [hp])]
    · rw [if_neg hp, List.findIdx?_succ] at h
      obtain ⟨j, hj, rfl⟩ := Option.map_eq_some'.mp h
      simp only [List.eraseIdx_cons_succ]
      rw [List.filter_cons_of_pos (by simp [hp]),
        List.filter_cons_of_pos (by simp [hp]), ih j hj]

/-- C8: deleting a nonexistent id rejects with `NotFound` and leaves the whole
state unchanged; deleting an existing id removes exactly that record — the
collection shrinks by one and the records with any other id are untouched. -/
theorem delete_task_spec (st : ServerState) (id : Int) :
    ((st.tasksFile.getD []).findIdx? (fun t => objGet t "id" == .vNum id) = none →
      apiDeleteTask st id = (.error "Task not found", st))
    ∧ (∀ idx,
        (st.tasksFile.getD []).findIdx? (fun t => objGet t "id" == .vNum id)
          = some idx →
        apiDeleteTask st id
          = (.ok (),
             { st with tasksFile := some ((st.tasksFile.getD []).eraseIdx idx) })
        ∧ ((st.tasksFile.getD []).eraseIdx idx).length + 1
            = (st.tasksFile.getD []).length
        ∧ ((st.tasksFile.getD []).eraseIdx idx).filter
              (fun t => !(objGet t "id" == .vNum id))
            = (st.tasksFile.getD []).filter
              (fun t => !(objGet t "id" == .vNum id))) := by
  constructor
  · intro hnone
    simp only [apiDeleteTask]
    rw [hnone]
  · intro idx hidx
    refine ⟨?_, ?_, ?_⟩
    · simp only [apiDeleteTask]
      rw [hidx]
    · have hlt : idx < (st.tasksFile.getD []).length := by
        rw [List.findIdx?_eq_some_iff_getElem] at hidx
        exact hidx.1
      rw [List.length_eraseIdx_of_lt hlt]
      omega
    · exact filter_not_eraseIdx_findIdx _ _ idx hidx

def c8State : ServerState :=
  ⟨some [[("id", .vNum 1), ("title", .vStr "A")],
         [("id", .vNum 2), ("title", .vStr "B")]], []⟩

/-- Witness for C8: deleting absent id 5 rejects and changes nothing;
deleting id 1 drops exactly the first record. -/
theorem delete_task_spec_witness :
    apiDeleteTask c8State 5 = (.error "Task not found", c8State)
    ∧ apiDeleteTask c8State 1
        = (.ok (),
           { c8State with
              tasksFile := some (((c8State.tasksFile.getD [])).eraseIdx 0) })
    ∧ ((c8State.tasksFile.getD []).eraseIdx 0).length + 1
        = (c8State.tasksFile.getD []).length := by
  have h5 := (delete_task_spec c8State 5).1 (by decide)
  have h1 := (delete_task_spec c8State 1).2 0 (by decide)
  exact ⟨h5, h1.1, h1.2.1⟩

/-! ### Comment-route lemmas -/

theorem fullEntry_commentEntry (body : Obj) (eid : JVal) (now : Nat) :
    fullEntry (commentEntry body) eid now
      = [("id", eid),
         ("type", .vStr "comment"),
         ("author", jsOr (objGet body "author") (.vStr "User")),
         ("text", jsOr (objGet body "text") (.vStr "")),
         ("actor", jsOr (objGet body "author") (.vStr "User")),
         ("timestamp", .vTime now)] := by
  simp [fullEntry, commentEntry, objMerge, objSet]

/-- C7: adding a comment to a nonexistent task id rejects with `NotFound`
and appends nothing (the state is unchanged); on an existing task it appends
exactly one `comment`-typed entry and returns that freshly created entry,
whose `actor` mirrors its `author`. -/
theorem add_comment_spec (st : ServerState) (id : Int) (body : Obj)
    (eid : JVal) (now : Nat) :
    ((st.tasksFile.getD []).find? (fun t => objGet t "id" == .vNum id) = none →
      apiAddComment st id body eid now = (.error "Task not found", st))
    ∧ (∀ t0,
        (st.tasksFile.getD []).find? (fun t => objGet t "id" == .vNum id)
          = some t0 →
        apiAddComment st id body eid now
          = (.ok (fullEntry (commentEntry body) eid now),
             { st with activity :=
                 (actSet st.activity (toString id)
                   (actGetD st.activity (toString id)
                     ++ [fullEntry (commentEntry body) eid now])) })
        ∧ actGetD (actSet st.activity (toString id)
              (actGetD st.activity (toString id)
                ++ [fullEntry (commentEntry body) eid now])) (toString id)
            = actGetD st.activity (toString id)
              ++ [fullEntry (commentEntry body) eid now]
        ∧ objGet (fullEntry (commentEntry body) eid now) "type" = .vStr "comment"
        ∧ objGet (fullEntry (commentEntry body) eid now) "actor"
            = objGet (fullEntry (commentEntry body) eid now) "author") := by
  constructor
  · intro hnone
    simp only [apiAddComment]
    rw [hnone]
  · intro t0 ht
    refine ⟨?_, ?_, ?_, ?_⟩
    · simp only [apiAddComment]
      rw [ht]
      simp only [addActivityEntry, List.getLast?_concat, Option.getD_some]
    · simp only [actGetD, actGet_actSet_self, Option.getD_some]
    · rw [fullEntry_commentEntry]
      simp [objGet]
    · rw [fullEntry_commentEntry]
      simp [objGet]

def c7State : ServerState :=
  ⟨some [[("id", .vNum 1), ("title", .vStr "T")]], []⟩

/-- Witness for C7: commenting on absent id 2 rejects and leaves the state
unchanged; commenting on id 1 returns the single appended comment entry. -/
theorem add_comment_spec_witness :
    apiAddComment c7State 2 [("author", .vStr "Ann"), ("text", .vStr "hi")]
        .vNull 30
      = (.error "Task not found", c7State)
    ∧ (apiAddComment c7State 1 [("author", .vStr "Ann"), ("text", .vStr "hi")]
        .vNull 30).1
      = .ok (fullEntry (commentEntry
          [("author", .vStr "Ann"), ("text", .vStr "hi")]) .vNull 30)
    ∧ objGet (fullEntry (commentEntry
          [("author", .vStr "Ann"), ("text", .vStr "hi")]) .vNull 30) "type"
      = .vStr "comment"
    ∧ objGet (fullEntry (commentEntry
          [("author", .vStr "Ann"), ("text", .vStr "hi")]) .vNull 30) "actor"
      = objGet (fullEntry (commentEntry
          [("author", .vStr "Ann"), ("text", .vStr "hi")]) .vNull 30) "author" := by
  have h2 := (add_comment_spec c7State 2
    [("author", .vStr "Ann"), ("text", .vStr "hi")] .vNull 30).1 (by decide)
  have h1 := (add_comment_spec c7State 1
    [("author", .vStr "Ann"), ("text", .vStr "hi")] .vNull 30).2
    [("id", .vNum 1), ("title", .vStr "T")] (by decide)
  exact ⟨h2, by rw [h1.1], h1.2.2.1, h1.2.2.2⟩

/-- C9: for every task id and every stored insertion order, listing activity
returns a permutation of all stored entries for that id (empty when none),
sorted descending by timestamp, with the sort applied at read time over the
insertion-ordered stored list. -/
theorem list_activity_sorted (st : ServerState) (idStr : String) :
    (apiListActivity st idStr).Perm (actGetD st.activity idStr)
    ∧ (apiListActivity st idStr).Pairwise (fun a b => entryTs b ≤ entryTs a)
    ∧ (actGet st.activity idStr = none → apiListActivity st idStr = []) := by
  have htrans : ∀ a b c : Obj, entryLe a b → entryLe b c → entryLe a c := by
    intro a b c hab hbc
    simp only [entryLe, decide_eq_true_eq] at *
    omega
  have htotal : ∀ a b : Obj, entryLe a b || entryLe b a := by
    intro a b
    simp only [entryLe, Bool.or_eq_true, decide_eq_true_eq]
    omega
  refine ⟨List.mergeSort_perm _ _, ?_, ?_⟩
  · have hp := List.sorted_mergeSort htrans htotal (actGetD st.activity idStr)
    exact hp.imp (by intro a b h; simpa [entryLe] using h)
  · intro h
    simp [apiListActivity, actGetD, h]

def c9Activity : Activity :=
  [("7", [[("type", .vStr "comment"), ("timestamp", .vTime 10)],
          [("type", .vStr "field_change"), ("timestamp", .vTime 30)],
          [("type", .vStr "comment"), ("timestamp", .vTime 20)]])]

/-- Witness for C9 on a concrete interleaving of comments and field changes
stored out of timestamp order. -/
theorem list_activity_sorted_witness :
    (apiListActivity ⟨none, c9Activity⟩ "7").Perm (actGetD c9Activity "7")
    ∧ (apiListActivity ⟨none, c9Activity⟩ "7").map entryTs = [30, 20, 10]
    ∧ apiListActivity ⟨none, c9Activity⟩ "9" = [] := by
  have h := list_activity_sorted ⟨none, c9Activity⟩ "7"
  have h9 := (list_activity_sorted ⟨none, c9Activity⟩ "9").2.2 (by decide)
  refine ⟨h.1, ?_, h9⟩
  simp [apiListActivity, actGetD, actGet, c9Activity, List.mergeSort,
    List.splitInTwo, List.splitAt, List.splitAt.go, List.merge, entryLe,
    entryTs, tsNat, objGet]

/-! ### Create-route lemmas -/

theorem foldl_max_init_le (l : List Obj) :
    ∀ init : Int, init ≤ l.foldl (fun mx t => max mx (idNum t)) init := by
  induction l with
  | nil => intro init; simp
  | cons a l ih =>
    intro init
    simp only [List.foldl_cons]
    exact le_trans (le_max_left _ _) (ih _)

theorem foldl_max_mem_le (l : List Obj) :
    ∀ (init : Int), ∀ t ∈ l,
      idNum t ≤ l.foldl (fun mx t => max mx (idNum t)) init := by
  induction l with
  | nil => intro init t ht; simp at ht
  | cons a l ih =>
    intro init t ht
    rcases List.mem_cons.mp ht with rfl | ht
    · simp only [List.foldl_cons]
      exact le_trans (le_max_right _ _) (foldl_max_init_le l _)
    · simp only [List.foldl_cons]
      exact ih _ t ht

theorem foldl_max_eq_init_or_mem (l : List Obj) :
    ∀ init : Int, l.foldl (fun mx t => max mx (idNum t)) init = init
      ∨ ∃ t ∈ l, l.foldl (fun mx t => max mx (idNum t)) init = idNum t := by
  induction l with
  | nil => intro init; left; rfl
  | cons a l ih =>
    intro init
    simp only [List.foldl_cons]
    rcases ih (max init (idNum a)) with h | ⟨t, ht, h⟩
    · rcases max_cases init (idNum a) with ⟨hm, -⟩ | ⟨hm, -⟩
      · left; rw [h, hm]
      · right; exact ⟨a, List.mem_cons_self a l, by rw [h, hm]⟩
    · right; exact ⟨t, List.mem_cons_of_mem _ ht, h⟩

/-- The writable field names a create request may supply. -/
def createInputFields : List String :=
  ["title", "month", "duration", "owner", "priority", "status", "dueDate",
   "boardId", "boardName", "domainId", "domainName", "notes"]

/-- C6: a create request assigns the next id (one above the maximum existing
id, or 1 on an empty or absent store), fills every omitted field with its §3
default, stamps `createdAt = updatedAt`, passes supplied (truthy) fields
through, and appends the new record to the collection. -/
theorem create_task_spec
    (st : ServerState) (body : Obj) (now : Nat) (curMonth : Int)
    (today : String) (newTask : Obj) (st' : ServerState)
    (hids : ∀ t ∈ st.tasksFile.getD [], (1 : Int) ≤ idNum t)
    (hok : apiCreateTask st body now curMonth today = (newTask, st')) :
    st'.tasksFile = some ((st.tasksFile.getD []) ++ [newTask])
    ∧ objGet newTask "createdAt" = .vTime now
    ∧ objGet newTask "updatedAt" = .vTime now
    ∧ (st.tasksFile.getD [] = [] → objGet newTask "id" = .vNum 1)
    ∧ (st.tasksFile.getD [] ≠ [] → ∃ t ∈ st.tasksFile.getD [],
        objGet newTask "id" = .vNum (idNum t + 1)
        ∧ ∀ u ∈ st.tasksFile.getD [], idNum u ≤ idNum t)
    ∧ (objGet body "title" = .vUndef → objGet newTask "title" = .vStr "New Task")
    ∧ (objGet body "duration" = .vUndef → objGet newTask "duration" = .vStr "1 week")
    ∧ (objGet body "owner" = .vUndef → objGet newTask "owner" = .vStr "Analyst")
    ∧ (objGet body "priority" = .vUndef → objGet newTask "priority" = .vStr "medium")
    ∧ (objGet body "status" = .vUndef → objGet newTask "status" = .vStr "not_started")
    ∧ (objGet body "boardId" = .vUndef → objGet newTask "boardId" = .vStr "")
    ∧ (objGet body "boardName" = .vUndef → objGet newTask "boardName" = .vStr "")
    ∧ (objGet body "domainId" = .vUndef → objGet newTask "domainId" = .vStr "")
    ∧ (objGet body "domainName" = .vUndef → objGet newTask "domainName" = .vStr "")
    ∧ (objGet body "notes" = .vUndef → objGet newTask "notes" = .vStr "")
    ∧ (∀ k ∈ createInputFields, isFalsy (objGet body k) = false →
        objGet newTask k = objGet body k) := by
  simp only [apiCreateTask, Prod.mk.injEq] at hok
  obtain ⟨hnew, hst⟩ := hok
  subst hnew
  subst hst
  refine ⟨rfl, by simp [objGet], by simp [objGet], ?_, ?_, ?_, ?_, ?_, ?_, ?_,
    ?_, ?_, ?_, ?_, ?_, ?_⟩
  · intro hempty
    rw [hempty]
    simp [objGet]
  · intro hne
    obtain ⟨t0, ht0⟩ := List.exists_mem_of_ne_nil _ hne
    rcases foldl_max_eq_init_or_mem (st.tasksFile.getD []) 0 with h | ⟨t, ht, h⟩
    · exfalso
      have h1 := hids t0 ht0
      have h2 := foldl_max_mem_le (st.tasksFile.getD []) 0 t0 ht0
      rw [h] at h2
      omega
    · refine ⟨t, ht, ?_, ?_⟩
      · simp only [objGet, if_pos]
        rw [h]
      · intro u hu
        have := foldl_max_mem_le (st.tasksFile.getD []) 0 u hu
        rw [h] at this
        exact this
  · intro h; simp [objGet, h, jsOr, isFalsy]
  · intro h; simp [objGet, h, jsOr, isFalsy]
  · intro h; simp [objGet, h, jsOr, isFalsy]
  · intro h; simp [objGet, h, jsOr, isFalsy]
  · intro h; simp [objGet, h, jsOr, isFalsy]
  · intro h; simp [objGet, h, jsOr, isFalsy]
  · intro h; simp [objGet, h, jsOr, isFalsy]
  · intro h; simp [objGet, h, jsOr, isFalsy]
  · intro h; simp [objGet, h, jsOr, isFalsy]
  · intro h; simp [objGet, h, jsOr, isFalsy]
  · intro k hk hfal
    fin_cases hk <;> simp [objGet, jsOr, hfal]

def c6Body : Obj := [("title", .vStr "Review bands"), ("priority", .vStr "high")]

def c6State : ServerState := ⟨none, []⟩

/-- Witness for C6: end-to-end scenario A — create on an absent store yields
id 1, default status and owner, the supplied priority, and equal creation
timestamps. -/
theorem create_task_spec_witness :
    (apiCreateTask c6State c6Body 40 9 "2026-10-09").2.tasksFile
      = some ((c6State.tasksFile.getD [])
          ++ [(apiCreateTask c6State c6Body 40 9 "2026-10-09").1])
    ∧ objGet (apiCreateTask c6State c6Body 40 9 "2026-10-09").1 "id" = .vNum 1
    ∧ objGet (apiCreateTask c6State c6Body 40 9 "2026-10-09").1 "status"
        = .vStr "not_started"
    ∧ objGet (apiCreateTask c6State c6Body 40 9 "2026-10-09").1 "owner"
        = .vStr "Analyst"
    ∧ objGet (apiCreateTask c6State c6Body 40 9 "2026-10-09").1 "priority"
        = objGet c6Body "priority"
    ∧ objGet (apiCreateTask c6State c6Body 40 9 "2026-10-09").1 "createdAt"
        = .vTime 40
    ∧ objGet (apiCreateTask c6State c6Body 40 9 "2026-10-09").1 "updatedAt"
        = .vTime 40 := by
  have h := create_task_spec c6State c6Body 40 9 "2026-10-09"
    (apiCreateTask c6State c6Body 40 9 "2026-10-09").1
    (apiCreateTask c6State c6Body 40 9 "2026-10-09").2
    (by intro t ht; simp [c6State] at ht) rfl
  obtain ⟨h1, h2, h3, h4, -, -, -, h8, -, h10, -, -, -, -, -, h16⟩ := h
  exact ⟨h1, h4 rfl, h10 (by decide), h8 (by decide),
    h16 "priority" (by decide) (by decide), h2, h3⟩

/-! ### Seeding lemmas -/

theorem seedTemplates_length (cat : Catalog) (year now : Nat)
    (rand : Nat → Fin 20) (tz : Int) (board : Board) :
    ∀ (ts : List Template) (s : Nat),
      (seedTemplates cat year now rand tz board ts s).length = ts.length := by
  intro ts
  induction ts with
  | nil => intro s; simp [seedTemplates]
  | cons tmpl ts ih =>
    intro s
    simp [seedTemplates, ih (s + 1)]

theorem seedBoards_length (cat : Catalog) (year now : Nat)
    (rand : Nat → Fin 20) (tz : Int) :
    ∀ (bs : List Board) (s : Nat),
      (seedBoards cat year now rand tz bs s).length
        = (bs.map (fun b => b.tasks.length)).sum := by
  intro bs
  induction bs with
  | nil => intro s; simp [seedBoards]
  | cons b bs ih =>
    intro s
    simp [seedBoards, seedTemplates_length, ih (s + b.tasks.length)]

theorem objGet_mkSeedTask_id (cat : Catalog) (year now : Nat)
    (rand : Nat → Fin 20) (tz : Int) (board : Board) (id : Nat)
    (tmpl : Template) :
    objGet (mkSeedTask cat year now rand tz board id tmpl) "id"
      = .vNum (id : Int) := by
  simp [mkSeedTask, objGet]

theorem seedTemplates_map_id (cat : Catalog) (year now : Nat)
    (rand : Nat → Fin 20) (tz : Int) (board : Board) :
    ∀ (ts : List Template) (s : Nat),
      (seedTemplates cat year now rand tz board ts s).map
          (fun t => objGet t "id")
        = (List.range ts.length).map (fun j => JVal.vNum ((s + j : Nat) : Int)) := by
  intro ts
  induction ts with
  | nil => intro s; simp [seedTemplates]
  | cons tmpl ts ih =>
    intro s
    simp only [seedTemplates, List.map_cons, List.length_cons]
    rw [objGet_mkSeedTask_id, ih (s + 1), List.range_succ_eq_map,
      List.map_cons, List.map_map]
    simp only [List.cons.injEq]
    refine ⟨by simp, ?_⟩
    apply List.map_congr_left
    intro j hj
    simp only [Function.comp_apply, JVal.vNum.injEq]
    omega

theorem seedBoards_map_id (cat : Catalog) (year now : Nat)
    (rand : Nat → Fin 20) (tz : Int) :
    ∀ (bs : List Board) (s : Nat),
      (seedBoards cat year now rand tz bs s).map (fun t => objGet t "id")
        = (List.range ((bs.map (fun b => b.tasks.length)).sum)).map
            (fun j => JVal.vNum ((s + j : Nat) : Int)) := by
  intro bs
  induction bs with
  | nil => intro s; simp [seedBoards]
  | cons b bs ih =>
    intro s
    simp only [seedBoards, List.map_append, List.map_cons, List.sum_cons]
    rw [seedTemplates_map_id, ih (s + b.tasks.length), List.range_add,
      List.map_append, List.map_map]
    congr 1
    apply List.map_congr_left
    intro j hj
    simp only [Function.comp_apply, JVal.vNum.injEq, Nat.cast_inj]
    omega

theorem seedTemplates_mem (cat : Catalog) (year now : Nat)
    (rand : Nat → Fin 20) (tz : Int) (board : Board) :
    ∀ (ts : List Template) (s : Nat) (t : Obj),
      t ∈ seedTemplates cat year now rand tz board ts s →
      ∃ tmpl id, tmpl ∈ ts ∧ t = mkSeedTask cat year now rand tz board id tmpl := by
  intro ts
  induction ts with
  | nil => intro s t ht; simp [seedTemplates] at ht
  | cons tmpl ts ih =>
    intro s t ht
    rcases List.mem_cons.mp ht with rfl | ht
    · exact ⟨tmpl, s, List.mem_cons_self tmpl ts, rfl⟩
    · obtain ⟨tmpl', id', hmem, he⟩ := ih (s + 1) t ht
      exact ⟨tmpl', id', List.mem_cons_of_mem _ hmem, he⟩

theorem seedBoards_mem (cat : Catalog) (year now : Nat)
    (rand : Nat → Fin 20) (tz : Int) :
    ∀ (bs : List Board) (s : Nat) (t : Obj),
      t ∈ seedBoards cat year now rand tz bs s →
      ∃ board tmpl id, board ∈ bs ∧ tmpl ∈ board.tasks
        ∧ t = mkSeedTask cat year now rand tz board id tmpl := by
  intro bs
  induction bs with
  | nil => intro s t ht; simp [seedBoards] at ht
  | cons b bs ih =>
    intro s t ht
    rcases List.mem_append.mp ht with ht | ht
    · obtain ⟨tmpl, id', hmem, he⟩ :=
        seedTemplates_mem cat year now rand tz b b.tasks s t ht
      exact ⟨b, tmpl, id', List.mem_cons_self b bs, hmem, he⟩
    · obtain ⟨board, tmpl, id', hb, hmem, he⟩ := ih (s + b.tasks.length) t ht
      exact ⟨board, tmpl, id', List.mem_cons_of_mem _ hb, hmem, he⟩

/-- C4: reset/seed replaces the whole collection with exactly the catalog's
total template count of records, ids 1, 2, … in catalog traversal order,
every seeded record `not_started` with identical `createdAt = updatedAt`
across the batch, clears the activity log entirely, and reports the record
and board counts — independently of the prior state, the random day offsets
and the timezone. -/
theorem seed_reset_spec (st : ServerState) (cat : Catalog) (year now : Nat)
    (rand : Nat → Fin 20) (tz : Int) :
    apiSeed st cat year now rand tz
      = ({ count := totalTemplates cat, boards := cat.boards.length },
         { tasksFile := some (seedTasks cat year now rand tz), activity := [] })
    ∧ (seedTasks cat year now rand tz).length = totalTemplates cat
    ∧ (seedTasks cat year now rand tz).map (fun t => objGet t "id")
        = (List.range (totalTemplates cat)).map
            (fun j => JVal.vNum ((1 + j : Nat) : Int))
    ∧ ∀ t ∈ seedTasks cat year now rand tz,
        objGet t "status" = .vStr "not_started"
        ∧ objGet t "createdAt" = .vTime now
        ∧ objGet t "updatedAt" = .vTime now := by
  have hlen : (seedTasks cat year now rand tz).length = totalTemplates cat := by
    rw [seedTasks, seedBoards_length]
    rfl
  refine ⟨?_, hlen, ?_, ?_⟩
  · simp only [apiSeed, hlen]
  · rw [seedTasks, seedBoards_map_id]
    rfl
  · intro t ht
    obtain ⟨board, tmpl, id', -, -, he⟩ :=
      seedBoards_mem cat year now rand tz cat.boards 1 t ht
    subst he
    refine ⟨?_, ?_, ?_⟩ <;> simp [mkSeedTask, objGet]

def c4Cat : Catalog :=
  ⟨[⟨"b1", "Board One", "core", [⟨"T1", 1, none, "Analyst", "medium"⟩,
                                 ⟨"T2", 2, some "2 weeks", "Lead", "high"⟩]⟩,
    ⟨"b2", "Board Two", "core", [⟨"T3", 3, none, "Manager", "low"⟩]⟩],
   fun _ => "Core Domain"⟩

def c4Rand : Nat → Fin 20 := fun _ => 0

/-- Witness for C4 on a two-board, three-template catalog over a non-trivial
prior state. -/
theorem seed_reset_spec_witness :
    apiSeed ⟨some [[("id", .vNum 9)]], [("9", [[("type", .vStr "comment")]])]⟩
        c4Cat 2026 500 c4Rand 0
      = ({ count := totalTemplates c4Cat, boards := c4Cat.boards.length },
         { tasksFile := some (seedTasks c4Cat 2026 500 c4Rand 0),
           activity := [] })
    ∧ (seedTasks c4Cat 2026 500 c4Rand 0).length = totalTemplates c4Cat
    ∧ (seedTasks c4Cat 2026 500 c4Rand 0).map (fun t => objGet t "id")
        = [.vNum 1, .vNum 2, .vNum 3] := by
  have h := seed_reset_spec
    ⟨some [[("id", .vNum 9)]], [("9", [[("type", .vStr "comment")]])]⟩
    c4Cat 2026 500 c4Rand 0
  refine ⟨h.1, h.2.1, ?_⟩
  rw [h.2.2.1]
  decide

theorem utcDueDay_nonpos (d : Nat) (tz : Int) (_hd : 1 ≤ d) (h1 : tz ≤ 0)
    (h2 : -1440 < tz) : utcDueDay d tz = (d : Int) := by
  unfold utcDueDay
  rw [Int.fdiv_eq_ediv _ (by norm_num : (0 : Int) ≤ 1440)]
  omega

theorem objGet_mkSeedTask_dueDate (cat : Catalog) (year now : Nat)
    (rand : Nat → Fin 20) (tz : Int) (board : Board) (id : Nat)
    (tmpl : Template) :
    objGet (mkSeedTask cat year now rand tz board id tmpl) "dueDate"
      = .vStr (fmtDate year tmpl.m (utcDueDay (5 + (rand id).val) tz).toNat) := by
  simp [mkSeedTask, objGet]

/-- C5 (amended): when the server's timezone is at or west of UTC
(offset ≤ 0 minutes east), every seeded record's `dueDate` renders day
`5 + offset` of the template's target month of the current year, with
day-of-month in [5, 24] for every random offset; in zones east of UTC the
rendered UTC date is one day earlier (see the counterexample). Every record
of a seed run is of this per-template shape. -/
theorem seeded_dueDate_range
    (cat : Catalog) (year now : Nat) (rand : Nat → Fin 20) (tz : Int)
    (h1 : tz ≤ 0) (h2 : -1440 < tz) :
    (∀ (board : Board) (id : Nat) (tmpl : Template),
      objGet (mkSeedTask cat year now rand tz board id tmpl) "dueDate"
        = .vStr (fmtDate year tmpl.m (5 + (rand id).val))
      ∧ 5 ≤ 5 + (rand id).val ∧ 5 + (rand id).val ≤ 24)
    ∧ (∀ t ∈ seedTasks cat year now rand tz,
        ∃ board tmpl id, board ∈ cat.boards ∧ tmpl ∈ board.tasks
          ∧ t = mkSeedTask cat year now rand tz board id tmpl) := by
  constructor
  · intro board id tmpl
    have hday : utcDueDay (5 + (rand id).val) tz = ((5 + (rand id).val : Nat) : Int) :=
      utcDueDay_nonpos _ tz (by omega) h1 h2
    refine ⟨?_, by omega, ?_⟩
    · rw [objGet_mkSeedTask_dueDate, hday, Int.toNat_natCast]
    · have := (rand id).isLt
      omega
  · intro t ht
    exact seedBoards_mem cat year now rand tz cat.boards 1 t ht

def c5Board : Board := ⟨"b", "B", "core", []⟩

def c5Tmpl : Template := ⟨"Task", 6, none, "Analyst", "medium"⟩

def c5Cat : Catalog := ⟨[], fun _ => "Core"⟩

def c5Rand : Nat → Fin 20 := fun _ => 0

/-- Counterexample to C5 as stated: in a timezone east of UTC (offset +60
minutes — e.g. central Europe in winter), the rendered due date falls on day
4 of the target month, outside [5, 24]: `new Date(year, m - 1, day)` is local
midnight, and `toISOString` renders the previous UTC day. -/
theorem seeded_dueDate_east_counterexample :
    objGet (mkSeedTask c5Cat 2026 0 c5Rand 60 c5Board 1 c5Tmpl) "dueDate"
      = .vStr "2026-06-04"
    ∧ utcDueDay (5 + (c5Rand 1).val) 60 = 4
    ∧ ¬ (5 : Int) ≤ utcDueDay (5 + (c5Rand 1).val) 60 := by
  refine ⟨?_, by decide, by decide⟩
  rfl

/-- Witness for the amended C5 at a concrete west-of-UTC offset. -/
theorem seeded_dueDate_range_witness :
    objGet (mkSeedTask c5Cat 2026 0 c5Rand (-300) c5Board 1 c5Tmpl) "dueDate"
      = .vStr (fmtDate 2026 c5Tmpl.m (5 + (c5Rand 1).val))
    ∧ 5 ≤ 5 + (c5Rand 1).val ∧ 5 + (c5Rand 1).val ≤ 24 := by
  exact (seeded_dueDate_range c5Cat 2026 0 c5Rand (-300) (by norm_num)
    (by norm_num)).1 c5Board 1 c5Tmpl
